import Mathlib

/-!
Verification of the rasterizer specification (500lines rasterizer chapter).

The repository source available here is the driver `rasterizer/run_examples.py`.
The rasterizer core (Color, the canvas `PPMImage`, the drawing routines and the
PPM encoder) is referenced by the driver but its source file is not present, so
the core is modelled from the specification text; definitions whose doc comment
starts with `Modelled from the spec:` are such models.  Real-number channel and
coordinate values are embedded as rationals.
-/

/-- Modelled from the spec: a Color is four scalars r, g, b, a; the data-model
invariant keeps each in [0, 1].  The `Color` class of the missing rasterizer
module. -/
structure Color where
  r : ℚ
  g : ℚ
  b : ℚ
  a : ℚ
  deriving DecidableEq, Repr

/-- Clamp a scalar into the interval [0, 1]. -/
def clamp01 (x : ℚ) : ℚ := max 0 (min 1 x)

/-- A Color is valid when each channel lies in [0, 1]. -/
def Color.valid (c : Color) : Prop :=
  0 ≤ c.r ∧ c.r ≤ 1 ∧ 0 ≤ c.g ∧ c.g ≤ 1 ∧ 0 ≤ c.b ∧ c.b ≤ 1 ∧ 0 ≤ c.a ∧ c.a ≤ 1

instance (c : Color) : Decidable c.valid := by
  unfold Color.valid; infer_instance

/-- Modelled from the spec: `make(r,g,b,a)` constructs a Color, clamping each
input to [0,1]; out-of-range inputs are silently clamped. -/
def Color.make (r g b a : ℚ) : Color :=
  ⟨clamp01 r, clamp01 g, clamp01 b, clamp01 a⟩

/-- Modelled from the spec: `over(src, dst)` is alpha-compositing source over
destination: for each channel c, `result_c = src_c*src_a + dst_c*(1 - src_a)`,
and `result_a = src_a + dst_a*(1 - src_a)`; as an operation that produces a
Color it clamps each channel to [0,1] (spec section 3 invariant), which is done
by constructing the result through `Color.make`. -/
def Color.over (src dst : Color) : Color :=
  Color.make (src.r * src.a + dst.r * (1 - src.a))
             (src.g * src.a + dst.g * (1 - src.a))
             (src.b * src.a + dst.b * (1 - src.a))
             (src.a + dst.a * (1 - src.a))

theorem clamp01_of_mem {x : ℚ} (h0 : 0 ≤ x) (h1 : x ≤ 1) : clamp01 x = x := by
  unfold clamp01
  rw [min_eq_right h1, max_eq_right h0]

theorem clamp01_nonneg (x : ℚ) : 0 ≤ clamp01 x := le_max_left 0 _

theorem clamp01_le_one (x : ℚ) : clamp01 x ≤ 1 := by
  unfold clamp01
  exact max_le (by norm_num) (min_le_left 1 x)

/-- Shared helper: on valid inputs the clamps in `over` are identities, so the
result is literally the compositing formula. -/
theorem over_eq_formula (src dst : Color) (hs : src.valid) (hd : dst.valid) :
    Color.over src dst =
      Color.mk (src.r * src.a + dst.r * (1 - src.a))
               (src.g * src.a + dst.g * (1 - src.a))
               (src.b * src.a + dst.b * (1 - src.a))
               (src.a + dst.a * (1 - src.a)) := by
  obtain ⟨hr0, hr1, hg0, hg1, hb0, hb1, ha0, ha1⟩ := hs
  obtain ⟨kr0, kr1, kg0, kg1, kb0, kb1, ka0, ka1⟩ := hd
  unfold Color.over Color.make
  have h1a : (0:ℚ) ≤ 1 - src.a := by linarith
  congr 1
  · exact clamp01_of_mem (by positivity) (by nlinarith)
  · exact clamp01_of_mem (by positivity) (by nlinarith)
  · exact clamp01_of_mem (by positivity) (by nlinarith)
  · exact clamp01_of_mem (by positivity) (by nlinarith)

/-- Claim C1: for every pair of (valid, per the spec data-model invariant)
Colors src and dst, `over(src, dst)` returns the Color whose channel c equals
`src_c*src_a + dst_c*(1 - src_a)` for red, green and blue, and whose alpha
equals `src_a + dst_a*(1 - src_a)`. -/
theorem over_channel_formula (src dst : Color) (hs : src.valid) (hd : dst.valid) :
    (Color.over src dst).r = src.r * src.a + dst.r * (1 - src.a) ∧
    (Color.over src dst).g = src.g * src.a + dst.g * (1 - src.a) ∧
    (Color.over src dst).b = src.b * src.a + dst.b * (1 - src.a) ∧
    (Color.over src dst).a = src.a + dst.a * (1 - src.a) := by
  rw [over_eq_formula src dst hs hd]
  exact ⟨rfl, rfl, rfl, rfl⟩

/-- Witness for C1 at concrete colors. -/
theorem over_channel_formula_witness :
    (Color.over (Color.mk (1/2) (1/4) 0 (1/2)) (Color.mk 1 1 1 1)).r = 3/4 ∧
    (Color.over (Color.mk (1/2) (1/4) 0 (1/2)) (Color.mk 1 1 1 1)).a = 1 := by
  have h := over_channel_formula (Color.mk (1/2) (1/4) 0 (1/2)) (Color.mk 1 1 1 1)
    (by norm_num [Color.valid]) (by norm_num [Color.valid])
  refine ⟨h.1.trans (by norm_num), h.2.2.2.trans (by norm_num)⟩

/-- Claim C3: for valid Colors c1, c2 with c1.alpha = 1, over(c1, c2) = c1. -/
theorem over_opaque (c1 c2 : Color) (h1 : c1.valid) (h2 : c2.valid)
    (ha : c1.a = 1) : Color.over c1 c2 = c1 := by
  rw [over_eq_formula c1 c2 h1 h2, ha]
  obtain ⟨r, g, b, a⟩ := c1
  simp only at ha
  subst ha
  simp only [Color.mk.injEq]
  refine ⟨by ring, by ring, by ring, by ring⟩

/-- Witness for C3 at concrete colors. -/
theorem over_opaque_witness :
    Color.over (Color.mk 1 0 0 1) (Color.mk 0 1 0 (1/2)) = Color.mk 1 0 0 1 :=
  over_opaque (Color.mk 1 0 0 1) (Color.mk 0 1 0 (1/2))
    (by norm_num [Color.valid]) (by norm_num [Color.valid]) rfl

/-- Claim C4: every operation producing a Color (`make` and `over`) clamps each
channel to [0,1]: `make` applied to arbitrary (possibly out-of-range) inputs
yields exactly the clamped channels and a valid Color, and `over` applied to
arbitrary inputs yields a valid Color. -/
theorem color_operations_clamp :
    (∀ r g b a : ℚ,
      (Color.make r g b a).r = clamp01 r ∧ (Color.make r g b a).g = clamp01 g ∧
      (Color.make r g b a).b = clamp01 b ∧ (Color.make r g b a).a = clamp01 a ∧
      (Color.make r g b a).valid) ∧
    (∀ src dst : Color, (Color.over src dst).valid) := by
  have hmk : ∀ r g b a : ℚ, (Color.make r g b a).valid := by
    intro r g b a
    exact ⟨clamp01_nonneg r, clamp01_le_one r, clamp01_nonneg g, clamp01_le_one g,
           clamp01_nonneg b, clamp01_le_one b, clamp01_nonneg a, clamp01_le_one a⟩
  refine ⟨fun r g b a => ⟨rfl, rfl, rfl, rfl, hmk r g b a⟩, fun src dst => ?_⟩
  unfold Color.over
  exact hmk _ _ _ _

/-- The error kinds of the rasterizer (spec section 7). -/
inductive RasterError
  | InvalidDimension
  | InvalidPrimitive
  | IOErr
  deriving DecidableEq, Repr

/-- Modelled from the spec: a Canvas is a width, a height and a row-major
mapping from integer coordinates to Colors.  The mapping is total; coordinates
outside [0,W)×[0,H) keep the background value, matching the spec policy that
out-of-range `get` returns the background-equivalent value. -/
structure Canvas where
  width : ℤ
  height : ℤ
  pix : ℤ → ℤ → Color

/-- A coordinate is in bounds when it lies in [0,W)×[0,H). -/
def Canvas.inBounds (c : Canvas) (x y : ℤ) : Prop :=
  0 ≤ x ∧ x < c.width ∧ 0 ≤ y ∧ y < c.height

instance (c : Canvas) (x y : ℤ) : Decidable (c.inBounds x y) := by
  unfold Canvas.inBounds; infer_instance

/-- Modelled from the spec: `get(x,y)` reads the pixel; out-of-range reads
return the background-equivalent value (the mapping is total and only
in-range cells are ever overwritten). -/
def Canvas.get (c : Canvas) (x y : ℤ) : Color := c.pix x y

/-- Modelled from the spec: `set(x,y,color)` writes the pixel when (x,y) is in
[0,W)×[0,H); out-of-range coordinates are a silent no-op (clipping policy). -/
def Canvas.set (c : Canvas) (x y : ℤ) (col : Color) : Canvas :=
  if c.inBounds x y then
    ⟨c.width, c.height, fun i j => if i = x ∧ j = y then col else c.pix i j⟩
  else c

/-- Modelled from the spec: `Canvas.make(width, height, background)` allocates
W×H cells initialized to `background`; it fails with `InvalidDimension` if
width ≤ 0 or height ≤ 0. -/
def Canvas.make (w h : ℤ) (background : Color) : Except RasterError Canvas :=
  if w ≤ 0 ∨ h ≤ 0 then .error .InvalidDimension
  else .ok ⟨w, h, fun _ _ => background⟩

/-- Modelled from the spec: the `PPMImage(n, background)` constructor used by
the driver builds a square n×n canvas whose cells all hold `background`. -/
def PPMImage (n : ℤ) (background : Color) : Canvas :=
  ⟨n, n, fun _ _ => background⟩

/-- A concrete canvas used by witnesses. -/
def testCanvas : Canvas := PPMImage 512 (Color.mk 1 1 1 1)

/-- Claim C6: calling `set` with an out-of-range coordinate is a silent no-op:
no error is possible (the operation is total) and the canvas — in particular
every in-range pixel — is unchanged. -/
theorem set_out_of_range_noop (c : Canvas) (x y : ℤ) (col : Color)
    (h : ¬ c.inBounds x y) :
    c.set x y col = c ∧ ∀ i j : ℤ, (c.set x y col).get i j = c.get i j := by
  have hs : c.set x y col = c := by
    unfold Canvas.set
    rw [if_neg h]
  exact ⟨hs, fun i j => by rw [hs]⟩

/-- Witness for C6: setting pixel (600, 0) on a 512×512 canvas changes
nothing. -/
theorem set_out_of_range_noop_witness :
    testCanvas.set 600 0 (Color.mk 0 0 0 1) = testCanvas :=
  (set_out_of_range_noop testCanvas 600 0 (Color.mk 0 0 0 1)
    (by norm_num [testCanvas, PPMImage, Canvas.inBounds])).1

/-- Claim C9: `Canvas.make(width, height, background)` fails with
`InvalidDimension` when width ≤ 0 or height ≤ 0, and otherwise succeeds with
every in-range coordinate initially holding the background Color. -/
theorem canvas_make_spec (w h : ℤ) (background : Color) :
    ((w ≤ 0 ∨ h ≤ 0) → Canvas.make w h background = .error .InvalidDimension) ∧
    (0 < w → 0 < h → ∃ c : Canvas, Canvas.make w h background = .ok c ∧
      ∀ x y : ℤ, c.inBounds x y → c.get x y = background) := by
  constructor
  · intro hbad
    unfold Canvas.make
    rw [if_pos hbad]
  · intro hw hh
    refine ⟨⟨w, h, fun _ _ => background⟩, ?_, fun x y _ => rfl⟩
    unfold Canvas.make
    rw [if_neg (by push_neg; constructor <;> linarith)]

/-- Witness for C9: a non-positive width fails, a positive size succeeds with
background pixels. -/
theorem canvas_make_spec_witness :
    Canvas.make (-1) 2 (Color.mk 1 1 1 1) = .error .InvalidDimension ∧
    ∃ c : Canvas, Canvas.make 2 3 (Color.mk 1 1 1 1) = .ok c ∧
      ∀ x y : ℤ, c.inBounds x y → c.get x y = Color.mk 1 1 1 1 :=
  ⟨(canvas_make_spec (-1) 2 (Color.mk 1 1 1 1)).1 (Or.inl (by norm_num)),
   (canvas_make_spec 2 3 (Color.mk 1 1 1 1)).2 (by norm_num) (by norm_num)⟩

/-- Modelled from the spec: the Primitive variant type — Point, Line (two real
endpoints) and Polygon (an ordered vertex list), each carrying a Color. -/
inductive Primitive
  | point (pos : ℚ × ℚ) (color : Color)
  | line (e0 e1 : ℚ × ℚ) (color : Color)
  | polygon (verts : List (ℚ × ℚ)) (color : Color)

/-- One step bound for the Bresenham loop below; the loop body of the
incremental integer-error scan-conversion (spec section 4.3, Line). -/
def bresenhamLoop : ℕ → ℤ → ℤ → ℤ → ℤ → ℤ → ℤ → ℤ → ℤ → ℤ → List (ℤ × ℤ)
  | 0, _, _, _, _, _, _, _, _, _ => []
  | fuel + 1, x0, y0, x1, y1, dx, dy, sx, sy, err =>
    if x0 = x1 ∧ y0 = y1 then [(x0, y0)]
    else
      let e2 := 2 * err
      let err1 := if dy ≤ e2 then err + dy else err
      let x0n := if dy ≤ e2 then x0 + sx else x0
      let err2 := if e2 ≤ dx then err1 + dx else err1
      let y0n := if e2 ≤ dx then y0 + sy else y0
      (x0, y0) :: bresenhamLoop fuel x0n y0n x1 y1 dx dy sx sy err2

/-- Modelled from the spec: Bresenham-style incremental integer-error
scan-conversion of the segment from p to q (all octants). -/
def bresenham (p q : ℤ × ℤ) : List (ℤ × ℤ) :=
  let dx := |q.1 - p.1|
  let dy := -|q.2 - p.2|
  let sx : ℤ := if p.1 < q.1 then 1 else -1
  let sy : ℤ := if p.2 < q.2 then 1 else -1
  bresenhamLoop ((dx - dy).toNat + 1) p.1 p.2 q.1 q.2 dx dy sx sy (dx + dy)

/-- Lexicographic order on integer pixels, used to canonicalize the endpoint
order of a line before scan-conversion. -/
def pixelLE (p q : ℤ × ℤ) : Prop :=
  p.1 < q.1 ∨ (p.1 = q.1 ∧ p.2 ≤ q.2)

instance (p q : ℤ × ℤ) : Decidable (pixelLE p q) := by
  unfold pixelLE; infer_instance

/-- Modelled from the spec: rasterization of a Line primitive.  Endpoints are
rounded to integer pixels; the spec requires the produced pixel set to be
identical for both endpoint orders, so the endpoints are canonically ordered
before running the Bresenham scan-conversion. -/
def lineRaster (e0 e1 : ℚ × ℚ) : List (ℤ × ℤ) :=
  let p := (round e0.1, round e0.2)
  let q := (round e1.1, round e1.2)
  if pixelLE p q then bresenham p q else bresenham q p

/-- Insert a rational into a sorted list, keeping it sorted. -/
def insertSorted (x : ℚ) : List ℚ → List ℚ
  | [] => [x]
  | y :: ys => if x ≤ y then x :: y :: ys else y :: insertSorted x ys

/-- Insertion sort for the per-scanline intersection lists. -/
def sortQ (l : List ℚ) : List ℚ := l.foldr insertSorted []

/-- Modelled from the spec: the x-intersections of the polygon's edges with the
horizontal scanline at height y.  Horizontal edges are excluded, and each other
edge counts on the half-open vertical range [min, max) to avoid
double-counting at shared vertices. -/
def edgeXs (verts : List (ℚ × ℚ)) (y : ℚ) : List ℚ :=
  (verts.zip (verts.rotate 1)).filterMap fun pq =>
    let p := pq.1
    let q := pq.2
    if p.2 = q.2 then none
    else if min p.2 q.2 ≤ y ∧ y < max p.2 q.2 then
      some (p.1 + (y - p.2) * (q.1 - p.1) / (q.2 - p.2))
    else none

/-- Group a sorted intersection list into consecutive span pairs. -/
def spanPairs : List ℚ → List (ℚ × ℚ)
  | x0 :: x1 :: rest => (x0, x1) :: spanPairs rest
  | _ => []

/-- Pixels of one filled span on scanline y: integer x from ⌈left⌉ through
⌊right⌋. -/
def spanPixels (y : ℤ) (s : ℚ × ℚ) : List (ℤ × ℤ) :=
  (List.range (⌊s.2⌋ + 1 - ⌈s.1⌉).toNat).map fun i => (⌈s.1⌉ + i, y)

/-- Modelled from the spec: scanline/edge-table polygon fill with the even-odd
rule — for each integer scanline in the polygon's vertical extent, sort the
edge intersections and fill between consecutive pairs. -/
def polygonPixels (verts : List (ℚ × ℚ)) : List (ℤ × ℤ) :=
  match verts.map Prod.snd with
  | [] => []
  | y0 :: ys =>
    let lo := ⌈ys.foldl min y0⌉
    let hi := ⌊ys.foldl max y0⌋
    (List.range (hi + 1 - lo).toNat).flatMap fun i =>
      let y := lo + i
      (spanPairs (sortQ (edgeXs verts (y : ℚ)))).flatMap (spanPixels y)

/-- Composite a color over the canvas at one pixel, the shared pixel-write of
all three algorithms: `Canvas.set` of `Color.over(color, canvas.get(x,y))`. -/
def blendAt (col : Color) (c : Canvas) (p : ℤ × ℤ) : Canvas :=
  c.set p.1 p.2 (Color.over col (c.get p.1 p.2))

/-- Modelled from the spec: `draw(primitive, canvas)`.  A Point composites at
the pixel nearest its coordinates; a Line composites along its scan-converted
pixels; a Polygon with ≥ 3 vertices composites its scanline fill, and fewer
than 3 vertices is an `InvalidPrimitive` error drawing nothing. -/
def draw (p : Primitive) (c : Canvas) : Option RasterError × Canvas :=
  match p with
  | .point pos col => (none, blendAt col c (round pos.1, round pos.2))
  | .line e0 e1 col => (none, (lineRaster e0 e1).foldl (blendAt col) c)
  | .polygon verts col =>
    if verts.length < 3 then (some .InvalidPrimitive, c)
    else (none, (polygonPixels verts).foldl (blendAt col) c)

theorem pixelLE_total (p q : ℤ × ℤ) (h : ¬ pixelLE p q) : pixelLE q p := by
  unfold pixelLE at *
  omega

theorem pixelLE_antisymm (p q : ℤ × ℤ) (h1 : pixelLE p q) (h2 : pixelLE q p) :
    p = q := by
  unfold pixelLE at *
  obtain ⟨a, b⟩ := p
  obtain ⟨a2, b2⟩ := q
  simp only [Prod.mk.injEq]
  omega

/-- Claim C2: line rasterization is symmetric — for all endpoints a, b, the
pixel set of the segment rasterized from a to b equals the pixel set
rasterized from b to a. -/
theorem lineRaster_symm (e0 e1 : ℚ × ℚ) :
    (lineRaster e0 e1).toFinset = (lineRaster e1 e0).toFinset := by
  suffices h : lineRaster e0 e1 = lineRaster e1 e0 by rw [h]
  unfold lineRaster
  by_cases h01 : pixelLE (round e0.1, round e0.2) (round e1.1, round e1.2)
  · by_cases h10 : pixelLE (round e1.1, round e1.2) (round e0.1, round e0.2)
    · rw [if_pos h01, if_pos h10, pixelLE_antisymm _ _ h01 h10]
    · rw [if_pos h01, if_neg h10]
  · rw [if_neg h01, if_pos (pixelLE_total _ _ h01)]

/-- Claim C5: drawing a polygon with fewer than 3 vertices reports
`InvalidPrimitive` and leaves the canvas exactly as it was. -/
theorem polygon_too_few_vertices (verts : List (ℚ × ℚ)) (col : Color)
    (c : Canvas) (h : verts.length < 3) :
    draw (.polygon verts col) c = (some .InvalidPrimitive, c) := by
  simp only [draw]
  rw [if_pos h]

/-- Witness for C5: a two-vertex polygon is rejected and the canvas is
untouched. -/
theorem polygon_too_few_vertices_witness :
    draw (.polygon [(0, 0), (1, 1)] (Color.mk 0 0 0 1)) testCanvas
      = (some .InvalidPrimitive, testCanvas) :=
  polygon_too_few_vertices [(0, 0), (1, 1)] (Color.mk 0 0 0 1) testCanvas
    (by norm_num)

/-- Claim C8: drawing a Point at (5.4, 5.6) on a canvas containing pixel
(5, 6) succeeds, composites its color over exactly pixel (5, 6), and leaves
every other pixel unchanged, because point coordinates round to the nearest
integer pixel. -/
theorem point_draw_rounds (c : Canvas) (col : Color) (h : c.inBounds 5 6) :
    (draw (.point (27/5, 28/5) col) c).1 = none ∧
    ((draw (.point (27/5, 28/5) col) c).2).get 5 6 = Color.over col (c.get 5 6) ∧
    ∀ x y : ℤ, ¬(x = 5 ∧ y = 6) →
      ((draw (.point (27/5, 28/5) col) c).2).get x y = c.get x y := by
  have hx : round ((27:ℚ)/5) = 5 := by
    rw [round_eq, Int.floor_eq_iff]
    norm_num
  have hy : round ((28:ℚ)/5) = 6 := by
    rw [round_eq, Int.floor_eq_iff]
    norm_num
  have hdraw : draw (.point (27/5, 28/5) col) c = (none, blendAt col c (5, 6)) := by
    simp only [draw]
    rw [hx, hy]
  rw [hdraw]
  refine ⟨rfl, ?_, ?_⟩
  · simp only [blendAt, Canvas.set, Canvas.get]
    rw [if_pos h]
    simp
  · intro x y hxy
    simp only [blendAt, Canvas.set, Canvas.get]
    rw [if_pos h]
    exact if_neg hxy

/-- Witness for C8 on the concrete 512×512 test canvas. -/
theorem point_draw_rounds_witness :
    ((draw (.point (27/5, 28/5) (Color.mk 0 0 0 1)) testCanvas).2).get 5 6
      = Color.over (Color.mk 0 0 0 1) (testCanvas.get 5 6) :=
  (point_draw_rounds testCanvas (Color.mk 0 0 0 1)
    (by norm_num [testCanvas, PPMImage, Canvas.inBounds])).2.1

/-- Modelled from the spec: the encoder's maximum channel value (the PPM
quantization ceiling). -/
def ppmMaxValue : ℕ := 255

/-- Modelled from the spec: a channel is quantized from the [0,1] float to an
integer by `round(value * maxValue)`, clamped into [0, maxValue] after
rounding. -/
def quantize (v : ℚ) : ℤ :=
  max 0 (min (ppmMaxValue : ℤ) (round (v * (ppmMaxValue : ℚ))))

/-- Claim C7: for every channel value v in [0,1] the quantizer returns exactly
`round(v * maxValue)` (the clamp is an identity there), and for every input
the serialized integer lies in [0, maxValue]. -/
theorem quantize_spec :
    (∀ v : ℚ, 0 ≤ v → v ≤ 1 → quantize v = round (v * (ppmMaxValue : ℚ))) ∧
    (∀ v : ℚ, 0 ≤ quantize v ∧ quantize v ≤ (ppmMaxValue : ℤ)) := by
  constructor
  · intro v h0 h1
    unfold quantize
    have hlo : (0:ℤ) ≤ round (v * (ppmMaxValue : ℚ)) := by
      rw [round_eq]
      refine Int.floor_nonneg.mpr ?_
      have : (0:ℚ) ≤ v * (ppmMaxValue : ℚ) := by positivity
      linarith
    have hhi : round (v * (ppmMaxValue : ℚ)) ≤ (ppmMaxValue : ℤ) := by
      rw [round_eq]
      have hcast : ((ppmMaxValue : ℤ) : ℚ) = (ppmMaxValue : ℚ) := by push_cast; rfl
      have h2 : ⌊v * (ppmMaxValue : ℚ) + 1/2⌋ < (ppmMaxValue : ℤ) + 1 := by
        refine Int.floor_lt.mpr ?_
        push_cast
        have hmv : (0:ℚ) < (ppmMaxValue : ℚ) := by norm_num [ppmMaxValue]
        nlinarith
      omega
    rw [min_eq_right hhi, max_eq_right hlo]
  · intro v
    refine ⟨le_max_left 0 _, ?_⟩
    unfold quantize
    exact max_le (by norm_num [ppmMaxValue]) (min_le_left _ _)

/-- Witness for C7 at v = 1/2. -/
theorem quantize_spec_witness :
    quantize (1/2) = 128 ∧ 0 ≤ quantize (1/2) ∧ quantize (1/2) ≤ 255 := by
  have h := quantize_spec.1 (1/2) (by norm_num) (by norm_num)
  have h2 := quantize_spec.2 (1/2)
  refine ⟨h.trans ?_, h2.1, le_trans h2.2 (by norm_num [ppmMaxValue])⟩
  rw [round_eq, Int.floor_eq_iff]
  norm_num [ppmMaxValue]

/-- Modelled from the spec: `write_ppm` serializes the canvas as a token list:
a header (width, height, maxValue) followed by the quantized (r, g, b) triple
of every pixel, row-major, top row first, left pixel first. -/
def write_ppm (c : Canvas) : List ℤ :=
  c.width :: c.height :: (ppmMaxValue : ℤ) ::
    ((List.range c.height.toNat).flatMap fun y =>
      (List.range c.width.toNat).flatMap fun x =>
        let col := c.get (x : ℤ) (y : ℤ)
        [quantize col.r, quantize col.g, quantize col.b])

/-- Model of `run_example` from `rasterizer/run_examples.py`: it builds a
fresh 512×512 `PPMImage` whose background is the opaque white
`Color(1, 1, 1, 1)`, runs the example's draw calls on it, and serializes the
result with `write_ppm`; a scene's `run` method is modelled as a canvas
transformer. -/
def run_example (scene : Canvas → Canvas) : Canvas × List ℤ :=
  let image := PPMImage 512 (Color.mk 1 1 1 1)
  let image2 := scene image
  (image2, write_ppm image2)

/-- Claim C10: for every example, `run_example` applies the example to a
freshly constructed 512×512 `PPMImage` whose every pixel is the fully opaque
white `Color(1,1,1,1)` (a valid color with alpha 1), and hands exactly the
example's output to the encoder; no canvas from outside the call is used. -/
theorem run_example_fresh_opaque_white (scene : Canvas → Canvas) :
    run_example scene
      = (scene (PPMImage 512 (Color.mk 1 1 1 1)),
         write_ppm (scene (PPMImage 512 (Color.mk 1 1 1 1)))) ∧
    (∀ x y : ℤ, (PPMImage 512 (Color.mk 1 1 1 1)).get x y = Color.mk 1 1 1 1) ∧
    (Color.mk 1 1 1 1).a = 1 ∧ (Color.mk 1 1 1 1).valid :=
  ⟨rfl, fun _ _ => rfl, rfl, by norm_num [Color.valid]⟩
